import Mathlib

/-!
Verification of `getdesktopaudio.cpp` (ESSTX/getdesktopaudio).

The program captures loopback audio on Windows and prints one JSON record per
captured packet.  This development shallowly embeds the algorithmic core:

* `ProcessAudioData` — the sample extractor `AudioCapture::ProcessAudioData`.
  A raw packet is modelled as a `List (ℚ × ℚ)` of interleaved stereo float32
  frames (`numFramesAvailable` is its length); float samples are modelled as
  rationals, which is exact for the operations the code performs (`fabs` and
  `std::clamp`, neither of which rounds).  The `std::vector<float>` sized
  `samplesCount` is a `List ℚ` of zeros written by index, and
  `resize(framesToProcess * 2)` is `List.take (framesToProcess * 2)`.
* `StartCapturing` / `RunLoop` / `CaptureAndProcessAudio` — the capture loop
  of `AudioCapture::StartCapturing` and `AudioCapture::CaptureAndProcessAudio`,
  embedded as a trace generator over scripts of platform responses
  (`GetNextPacketSize` answers and `GetBuffer` outcomes), producing the
  sequence of observable events (queries, buffer acquire/release, record
  emissions, sleeps).  `fuel` bounds the unfolding of the infinite loop.
* `atoi` / `parseArgs` / `mainModel` — the argument handling of `main`:
  C `atoi` semantics (skip whitespace, optional sign, leading digit run,
  0 when there are no digits), the `argv` scan with its defaults 64 / 15,
  and the fatal-error exits (`throw` caught in `main`, `EXIT_FAILURE`).
-/

set_option maxRecDepth 4000

namespace GetDesktopAudio

/-- Model of `std::clamp(v, lo, hi)`: `v < lo ? lo : (hi < v ? hi : v)`. -/
def clampV (v lo hi : ℚ) : ℚ :=
  if v < lo then lo else if hi < v then hi else v

/-- One iteration body of the fill loop in `ProcessAudioData`:
`audioSamples[i*2] = clamp(fabs(left)); audioSamples[i*2+1] = clamp(fabs(right))`. -/
def writeFrame (buf : List ℚ) (i : ℕ) (f : ℚ × ℚ) : List ℚ :=
  (buf.set (i * 2) (clampV |f.1| 0 1)).set (i * 2 + 1) (clampV |f.2| 0 1)

/-- The `for (i = 0; i < framesToProcess; ++i)` loop of `ProcessAudioData`:
starting at frame index `i` with `k` frames left to process, write each frame
into the buffer. -/
def fillFrames (data : List (ℚ × ℚ)) : ℕ → ℕ → List ℚ → List ℚ
  | _, 0, buf => buf
  | i, k + 1, buf => fillFrames data (i + 1) k (writeFrame buf i (data.getD i (0, 0)))

/-- The function `AudioCapture::ProcessAudioData`: allocate a zeroed vector of size
`samplesCount`, process `min(numFramesAvailable, samplesCount / 2)` frames,
then resize down to `framesToProcess * 2`.  The returned list is the JSON
array emitted for the packet. -/
def ProcessAudioData (data : List (ℚ × ℚ)) (samplesCount : ℕ) : List ℚ :=
  let framesToProcess := min data.length (samplesCount / 2)
  (fillFrames data 0 framesToProcess (List.replicate samplesCount 0)).take
    (framesToProcess * 2)

/-- Interleaving of the clamped absolute values of a frame list, the
closed-form value of the fill loop. -/
def interleaveClamped : List (ℚ × ℚ) → List ℚ
  | [] => []
  | f :: rest => clampV |f.1| 0 1 :: clampV |f.2| 0 1 :: interleaveClamped rest

/-- Interleaving of the plain absolute values of a frame list.  This is the
output shape the spec's end-to-end property describes
(`[|l0|, |r0|, |l1|, |r1|, ...]`), to be compared with `ProcessAudioData`. -/
def interleaveAbs : List (ℚ × ℚ) → List ℚ
  | [] => []
  | f :: rest => |f.1| :: |f.2| :: interleaveAbs rest

/-- Observable events of the capture loop: `GetNextPacketSize` answers,
`GetBuffer` calls (with success flag), record emissions on stdout,
`ReleaseBuffer` calls, and the `sleep_for(interval)` calls. -/
inductive CapEv where
  | query : ℕ → CapEv
  | getBuffer : Bool → CapEv
  | emit : List ℚ → CapEv
  | releaseBuffer : CapEv
  | sleep : CapEv
deriving DecidableEq, Repr

/-- The function `AudioCapture::CaptureAndProcessAudio`: call `GetBuffer` (its outcome is
scripted: `none` = the call FAILED, `some pkt` = it succeeded with packet
`pkt`).  The FAILED check is commented out in the source, so on failure the
locals keep their initializers (`data = nullptr`, `numFramesAvailable = 0`)
and execution falls through: the record for the empty packet is still
emitted and `ReleaseBuffer` is still called. -/
def CaptureAndProcessAudio (buf : Option (List (ℚ × ℚ))) (samplesCount : ℕ) :
    List CapEv :=
  match buf with
  | none =>
      [CapEv.getBuffer false, CapEv.emit (ProcessAudioData [] samplesCount),
       CapEv.releaseBuffer]
  | some pkt =>
      [CapEv.getBuffer true, CapEv.emit (ProcessAudioData pkt samplesCount),
       CapEv.releaseBuffer]

/-- The body of `StartCapturing`'s `while (true)` loop, after the first
`GetNextPacketSize`.  `pl` is the current `packetLength`; `qs` scripts the
answers of the remaining `GetNextPacketSize` calls and `bufs` the outcomes of
the `GetBuffer` calls.  With `pl ≠ 0` the inner `while (packetLength != 0)`
body runs: process one packet, re-query, sleep.  With `pl = 0` the inner loop
exits, the outer loop sleeps and re-queries.  `fuel` bounds the unfolding;
the trace ends when `fuel` or the query script runs out. -/
def RunLoop (samplesCount : ℕ) :
    ℕ → ℕ → List ℕ → List (Option (List (ℚ × ℚ))) → List CapEv
  | 0, _, _, _ => []
  | fuel + 1, 0, qs, bufs =>
      CapEv.sleep ::
        (match qs with
         | [] => []
         | n :: qrest => CapEv.query n :: RunLoop samplesCount fuel n qrest bufs)
  | fuel + 1, _ + 1, qs, bufs =>
      CaptureAndProcessAudio (bufs.headD none) samplesCount ++
        (match qs with
         | [] => []
         | n :: qrest =>
             CapEv.query n :: CapEv.sleep ::
               RunLoop samplesCount fuel n qrest bufs.tail)

/-- The function `AudioCapture::StartCapturing`: the initial `GetNextPacketSize` consumes
the first scripted answer, then the loop runs. -/
def StartCapturing (samplesCount fuel : ℕ) (qs : List ℕ)
    (bufs : List (Option (List (ℚ × ℚ)))) : List CapEv :=
  match qs with
  | [] => []
  | n :: qrest => CapEv.query n :: RunLoop samplesCount fuel n qrest bufs

/-- Holds (`true`) iff the trace reaches a `sleep` (or its end) before any
`getBuffer`. -/
def noAcqBeforeSleep : List CapEv → Bool
  | [] => true
  | CapEv.sleep :: _ => true
  | CapEv.getBuffer _ :: _ => false
  | _ :: t => noAcqBeforeSleep t

/-- Holds (`true`) iff after every `getBuffer` in the trace, a `sleep` (or the end of
the trace) comes before the next `getBuffer`: at most one packet is drained
per wake-up. -/
def acqSeparated : List CapEv → Bool
  | [] => true
  | CapEv.getBuffer _ :: t => noAcqBeforeSleep t && acqSeparated t
  | _ :: t => acqSeparated t

/-- Projection of a trace onto its buffer-discipline events: `getBuffer`
becomes `true`, `releaseBuffer` becomes `false`, everything else is dropped. -/
def pairTag : CapEv → Option Bool
  | CapEv.getBuffer _ => some true
  | CapEv.releaseBuffer => some false
  | _ => none

/-- Exactly `k` acquire/release pairs in alternation: the shape a trace's
buffer-discipline projection must take when acquires and releases match 1:1
with the release always between an acquire and the next. -/
def altPairs : ℕ → List Bool
  | 0 => []
  | k + 1 => true :: false :: altPairs k

/-- The whitespace set skipped by C `atoi`. -/
def isSpaceChar (c : Char) : Bool :=
  c = ' ' || c = '\t' || c = '\n' || c = '\x0b' || c = '\x0c' || c = '\r'

/-- The digit-accumulation loop of C `atoi`: consume the leading run of
decimal digits, stopping at the first non-digit. -/
def atoiDigits : List Char → ℤ → ℤ
  | [], acc => acc
  | c :: cs, acc =>
      if c.isDigit then atoiDigits cs (acc * 10 + ((c.toNat - 48 : ℕ) : ℤ)) else acc

/-- C `atoi`: skip leading whitespace, read an optional sign and a leading
digit run; a string with no leading digit run converts to 0.  (Overflow is
not modelled; the command lines of interest stay tiny.) -/
def atoi (s : String) : ℤ :=
  match s.toList.dropWhile isSpaceChar with
  | '-' :: cs => -(atoiDigits cs 0)
  | '+' :: cs => atoiDigits cs 0
  | cs => atoiDigits cs 0

/-- The `argv` scan in `main`: `-samples`/`-interval` followed by a value are
consumed in pairs (`atoi`, then the positivity check whose failure throws);
a recognized flag with no following token fails the `i + 1 < argc` test and
is skipped; every other token is ignored.  `Except.error` carries the
`std::invalid_argument` message. -/
def parseArgs : List String → ℤ → ℤ → Except String (ℤ × ℤ)
  | [], samplesCount, interval => Except.ok (samplesCount, interval)
  | a :: rest, samplesCount, interval =>
      if a = "-samples" then
        match rest with
        | [] => Except.ok (samplesCount, interval)
        | v :: rest2 =>
            if atoi v ≤ 0 then Except.error "Samples count must be positive."
            else parseArgs rest2 (atoi v) interval
      else if a = "-interval" then
        match rest with
        | [] => Except.ok (samplesCount, interval)
        | v :: rest2 =>
            if atoi v ≤ 0 then Except.error "Interval must be positive."
            else parseArgs rest2 samplesCount (atoi v)
      else parseArgs rest samplesCount interval

/-- Outcome of `main` up to the point where the capture loop would start:
either the process exits with `EXIT_FAILURE` (a thrown `invalid_argument`
caught by the top-level handler, before any device setup), or control reaches
`StartCapturing` with the parsed configuration.  Device/endpoint acquisition
is an external collaborator and is not modelled. -/
inductive MainOutcome where
  | exitFailure : MainOutcome
  | enterCapture : ℤ → ℤ → MainOutcome
deriving DecidableEq, Repr

/-- The function `main`: defaults `samplesCount = 64`, `interval = 15`, then the `argv`
scan; a parse error exits with `EXIT_FAILURE` before the capture loop. -/
def mainModel (args : List String) : MainOutcome :=
  match parseArgs args 64 15 with
  | Except.error _ => MainOutcome.exitFailure
  | Except.ok (s, iv) => MainOutcome.enterCapture s iv

/-- The token `v` appears directly after the token `flag` somewhere in the
argument list (so the `argv` scan would read `v` as `flag`'s value, were
`flag` itself not consumed earlier). -/
def Adjacent (flag v : String) (args : List String) : Prop :=
  ∃ l r, args = l ++ flag :: v :: r

/-!  ## Theorems  -/

theorem length_interleaveClamped (xs : List (ℚ × ℚ)) :
    (interleaveClamped xs).length = 2 * xs.length := by
  induction xs with
  | nil => rfl
  | cons f rest ih => simp [interleaveClamped, ih]; ring

theorem length_writeFrame (buf : List ℚ) (i : ℕ) (f : ℚ × ℚ) :
    (writeFrame buf i f).length = buf.length := by
  simp [writeFrame]

theorem length_fillFrames (data : List (ℚ × ℚ)) (i k : ℕ) (buf : List ℚ) :
    (fillFrames data i k buf).length = buf.length := by
  induction k generalizing i buf with
  | zero => rfl
  | succ k ih => simp [fillFrames, ih, length_writeFrame]

theorem set_set_take (l : List ℚ) (n : ℕ) (a b : ℚ) (h : n + 1 < l.length) :
    ((l.set n a).set (n + 1) b).take (n + 2) = l.take n ++ [a, b] := by
  induction n generalizing l with
  | zero =>
    match l, h with
    | x :: y :: t, _ => simp [List.set]
  | succ n ih =>
    match l, h with
    | x :: t, h =>
      have ht : n + 1 < t.length := by simpa using h
      simp only [List.set, List.take, List.cons_append]
      rw [ih t ht]

theorem fillFrames_take (data : List (ℚ × ℚ)) (k : ℕ) :
    ∀ (i : ℕ) (buf : List ℚ), (i + k) * 2 ≤ buf.length → i + k ≤ data.length →
      (fillFrames data i k buf).take ((i + k) * 2) =
        buf.take (i * 2) ++ interleaveClamped ((data.drop i).take k) := by
  induction k with
  | zero => intro i buf _ _; simp [fillFrames, interleaveClamped]
  | succ k ih =>
    intro i buf hbuf hdata
    have hi : i < data.length := by omega
    have hdrop : data.drop i = data[i] :: data.drop (i + 1) :=
      List.drop_eq_getElem_cons hi
    have hgetD : data.getD i (0, 0) = data[i] := List.getD_eq_getElem data (0, 0) hi
    have harith : i + (k + 1) = (i + 1) + k := by omega
    have hbuf' : ((i + 1) + k) * 2 ≤ (writeFrame buf i (data.getD i (0, 0))).length := by
      rw [length_writeFrame]; omega
    have hdata' : (i + 1) + k ≤ data.length := by omega
    have hstep := ih (i + 1) (writeFrame buf i (data.getD i (0, 0))) hbuf' hdata'
    have hw : (writeFrame buf i (data.getD i (0, 0))).take ((i + 1) * 2) =
        buf.take (i * 2) ++ [clampV |(data[i]).1| 0 1, clampV |(data[i]).2| 0 1] := by
      have h2 : i * 2 + 1 < buf.length := by omega
      have h3 := set_set_take buf (i * 2) (clampV |(data[i]).1| 0 1)
        (clampV |(data[i]).2| 0 1) h2
      unfold writeFrame
      rw [hgetD, show (i + 1) * 2 = i * 2 + 2 by ring]
      exact h3
    calc (fillFrames data i (k + 1) buf).take ((i + (k + 1)) * 2)
        = (fillFrames data (i + 1) k (writeFrame buf i (data.getD i (0, 0)))).take
            (((i + 1) + k) * 2) := by rw [fillFrames, harith]
      _ = buf.take (i * 2) ++ interleaveClamped ((data.drop i).take (k + 1)) := by
          rw [hstep, hw, hdrop]
          simp [interleaveClamped, List.append_assoc]

/-- Closed form of `ProcessAudioData`: the emitted array is the interleaved
clamped absolute values of the first `min(numFramesAvailable, samplesCount/2)`
frames. -/
theorem ProcessAudioData_eq (data : List (ℚ × ℚ)) (samplesCount : ℕ) :
    ProcessAudioData data samplesCount =
      interleaveClamped (data.take (min data.length (samplesCount / 2))) := by
  unfold ProcessAudioData
  have hftp : min data.length (samplesCount / 2) ≤ data.length := min_le_left _ _
  have hftp2 : min data.length (samplesCount / 2) * 2 ≤ samplesCount := by
    have h1 : min data.length (samplesCount / 2) ≤ samplesCount / 2 := min_le_right _ _
    omega
  have := fillFrames_take data (min data.length (samplesCount / 2)) 0
    (List.replicate samplesCount (0 : ℚ)) (by simpa using hftp2)
    (by simp only [Nat.zero_add]; exact hftp)
  simpa using this

theorem length_ProcessAudioData (data : List (ℚ × ℚ)) (samplesCount : ℕ) :
    (ProcessAudioData data samplesCount).length =
      2 * min data.length (samplesCount / 2) := by
  rw [ProcessAudioData_eq, length_interleaveClamped, List.length_take]
  have : min data.length (samplesCount / 2) ≤ data.length := min_le_left _ _
  omega

theorem clampV_abs_bounds (a : ℚ) : 0 ≤ clampV |a| 0 1 ∧ clampV |a| 0 1 ≤ 1 := by
  unfold clampV
  split_ifs with h1 h2
  · exact ⟨le_refl 0, by norm_num⟩
  · exact ⟨by norm_num, le_refl 1⟩
  · exact ⟨not_lt.mp h1, not_lt.mp h2⟩

theorem clampV_abs_of_le_one (a : ℚ) (h : |a| ≤ 1) : clampV |a| 0 1 = |a| := by
  unfold clampV
  rw [if_neg (not_lt.mpr (abs_nonneg a)), if_neg (not_lt.mpr h)]

theorem clampV_abs_zero : clampV |(0 : ℚ)| 0 1 = 0 := by
  rw [abs_zero]; unfold clampV; norm_num

theorem mem_interleaveClamped (xs : List (ℚ × ℚ)) (x : ℚ)
    (hx : x ∈ interleaveClamped xs) : 0 ≤ x ∧ x ≤ 1 := by
  induction xs with
  | nil => simp [interleaveClamped] at hx
  | cons f rest ih =>
    simp only [interleaveClamped, List.mem_cons] at hx
    rcases hx with rfl | rfl | hx
    · exact clampV_abs_bounds f.1
    · exact clampV_abs_bounds f.2
    · exact ih hx

theorem interleaveClamped_all_zero (xs : List (ℚ × ℚ))
    (h : ∀ f ∈ xs, f = 0) : interleaveClamped xs = List.replicate (2 * xs.length) 0 := by
  induction xs with
  | nil => rfl
  | cons f rest ih =>
    have hf : f = 0 := h f (List.mem_cons_self f rest)
    have h1 : f.1 = 0 := by simp [hf]
    have h2 : f.2 = 0 := by simp [hf]
    have hrest := ih (fun g hg => h g (List.mem_cons_of_mem f hg))
    rw [interleaveClamped, h1, h2, clampV_abs_zero, hrest,
      show 2 * (f :: rest).length = 2 * rest.length + 1 + 1 by simp; ring,
      List.replicate_succ, List.replicate_succ]

theorem interleaveClamped_eq_interleaveAbs (xs : List (ℚ × ℚ))
    (h : ∀ f ∈ xs, |f.1| ≤ 1 ∧ |f.2| ≤ 1) :
    interleaveClamped xs = interleaveAbs xs := by
  induction xs with
  | nil => rfl
  | cons f rest ih =>
    have hf := h f (List.mem_cons_self f rest)
    rw [interleaveClamped, interleaveAbs, clampV_abs_of_le_one f.1 hf.1,
      clampV_abs_of_le_one f.2 hf.2, ih (fun g hg => h g (List.mem_cons_of_mem f hg))]

/-- C1: for every captured packet and positive sample budget, the emitted
record has length exactly `2 * min(framesAvailable, samplesCount / 2)` and
hence never exceeds `samplesCount`. -/
theorem record_length_bounded (data : List (ℚ × ℚ)) (samplesCount : ℕ)
    (_hpos : 0 < samplesCount) :
    (ProcessAudioData data samplesCount).length =
        2 * min data.length (samplesCount / 2) ∧
      (ProcessAudioData data samplesCount).length ≤ samplesCount := by
  refine ⟨length_ProcessAudioData data samplesCount, ?_⟩
  rw [length_ProcessAudioData]
  omega

theorem record_length_bounded_witness :
    (ProcessAudioData [((1 : ℚ)/2, (1 : ℚ)/2)] 64).length =
        2 * min ([((1 : ℚ)/2, (1 : ℚ)/2)] : List (ℚ × ℚ)).length (64 / 2) ∧
      (ProcessAudioData [((1 : ℚ)/2, (1 : ℚ)/2)] 64).length ≤ 64 :=
  record_length_bounded [((1 : ℚ)/2, (1 : ℚ)/2)] 64 (by decide)

/-- C2 counterexample: the emitted array is NOT always the interleaved
absolute values of the input frames — a sample of magnitude above 1 is
clamped.  Frames `[(2, 0)]` with budget 64 emit `[1, 0]`, not `[|2|, |0|]`. -/
theorem emitted_ne_abs_at_large_sample :
    ProcessAudioData [((2 : ℚ), 0)] 64 = [1, 0] ∧
      ProcessAudioData [((2 : ℚ), 0)] 64 ≠ interleaveAbs [((2 : ℚ), 0)] := by
  constructor
  · decide
  · decide

/-- C2 (amended): for every stereo packet whose frame count is at most
`samplesCount / 2` AND whose samples all have absolute value at most 1, the
emitted array is the interleaved sequence of absolute values of the input
frames, in arrival order. -/
theorem emitted_eq_abs_of_small (data : List (ℚ × ℚ)) (samplesCount : ℕ)
    (hlen : data.length ≤ samplesCount / 2)
    (hval : ∀ f ∈ data, |f.1| ≤ 1 ∧ |f.2| ≤ 1) :
    ProcessAudioData data samplesCount = interleaveAbs data := by
  rw [ProcessAudioData_eq, min_eq_left hlen, List.take_length,
    interleaveClamped_eq_interleaveAbs data hval]

theorem emitted_eq_abs_of_small_witness :
    ProcessAudioData [((1 : ℚ)/5, -(3 : ℚ)/10), ((9 : ℚ)/10, (1 : ℚ)/10)] 64 =
      interleaveAbs [((1 : ℚ)/5, -(3 : ℚ)/10), ((9 : ℚ)/10, (1 : ℚ)/10)] :=
  emitted_eq_abs_of_small _ 64 (by decide)
    (by
      intro f hf
      simp only [List.mem_cons, List.not_mem_nil, or_false] at hf
      rcases hf with rfl | rfl <;> constructor <;> rw [abs_le] <;>
        constructor <;> norm_num)

/-- C3: every emitted scalar lies in `[0, 1]`, and a silent (all-zero) packet
yields an all-zero array of the expected length. -/
theorem emitted_clamped_and_silent (data : List (ℚ × ℚ)) (samplesCount : ℕ) :
    (∀ x ∈ ProcessAudioData data samplesCount, 0 ≤ x ∧ x ≤ 1) ∧
      ((∀ f ∈ data, f = 0) →
        ProcessAudioData data samplesCount =
          List.replicate (2 * min data.length (samplesCount / 2)) 0) := by
  constructor
  · intro x hx
    rw [ProcessAudioData_eq] at hx
    exact mem_interleaveClamped _ x hx
  · intro hz
    rw [ProcessAudioData_eq]
    have hz' : ∀ f ∈ data.take (min data.length (samplesCount / 2)), f = 0 :=
      fun f hf => hz f (List.mem_of_mem_take hf)
    rw [interleaveClamped_all_zero _ hz', List.length_take]
    have : min data.length (samplesCount / 2) ≤ data.length := min_le_left _ _
    congr 1
    omega

theorem emitted_clamped_and_silent_witness :
    (∀ x ∈ ProcessAudioData [((0 : ℚ), 0), (0, 0)] 64, 0 ≤ x ∧ x ≤ 1) ∧
      ProcessAudioData [((0 : ℚ), 0), (0, 0)] 64 =
        List.replicate (2 * min ([((0 : ℚ), 0), (0, 0)] : List (ℚ × ℚ)).length
          (64 / 2)) 0 :=
  ⟨(emitted_clamped_and_silent [((0 : ℚ), 0), (0, 0)] 64).1,
    (emitted_clamped_and_silent [((0 : ℚ), 0), (0, 0)] 64).2 (by decide)⟩

/-- C9: with an odd sample budget the record never uses the final slot: its
length is even and at most `samplesCount - 1`. -/
theorem odd_budget_rounds_down (data : List (ℚ × ℚ)) (samplesCount : ℕ)
    (hodd : samplesCount % 2 = 1) :
    (ProcessAudioData data samplesCount).length ≤ samplesCount - 1 ∧
      (ProcessAudioData data samplesCount).length % 2 = 0 := by
  rw [length_ProcessAudioData]
  omega

theorem odd_budget_rounds_down_witness :
    (ProcessAudioData (List.replicate 40 ((0 : ℚ), (0 : ℚ))) 63).length ≤ 63 - 1 ∧
      (ProcessAudioData (List.replicate 40 ((0 : ℚ), (0 : ℚ))) 63).length % 2 = 0 :=
  odd_budget_rounds_down (List.replicate 40 ((0 : ℚ), (0 : ℚ))) 63 (by decide)

theorem ProcessAudioData_nil (samplesCount : ℕ) :
    ProcessAudioData [] samplesCount = [] := by
  rw [ProcessAudioData_eq]
  simp [interleaveClamped]

theorem noAcqBeforeSleep_append_getBuffer (l r : List CapEv) (o : Bool)
    (h : noAcqBeforeSleep (l ++ CapEv.getBuffer o :: r) = true) :
    CapEv.sleep ∈ l := by
  induction l with
  | nil => simp [noAcqBeforeSleep] at h
  | cons x t ih =>
    cases x with
    | sleep => exact List.mem_cons_self _ _
    | getBuffer o' => simp [noAcqBeforeSleep] at h
    | query n => exact List.mem_cons_of_mem _ (ih (by simpa [noAcqBeforeSleep] using h))
    | emit r' => exact List.mem_cons_of_mem _ (ih (by simpa [noAcqBeforeSleep] using h))
    | releaseBuffer =>
        exact List.mem_cons_of_mem _ (ih (by simpa [noAcqBeforeSleep] using h))

theorem acqSeparated_of_append (l t : List CapEv)
    (h : acqSeparated (l ++ t) = true) : acqSeparated t = true := by
  induction l with
  | nil => exact h
  | cons x l' ih =>
    cases x with
    | getBuffer o =>
        simp only [List.cons_append, acqSeparated, Bool.and_eq_true] at h
        exact ih h.2
    | query n => exact ih (by simpa [acqSeparated] using h)
    | emit r => exact ih (by simpa [acqSeparated] using h)
    | releaseBuffer => exact ih (by simpa [acqSeparated] using h)
    | sleep => exact ih (by simpa [acqSeparated] using h)

theorem acqSeparated_RunLoop (samplesCount : ℕ) (fuel : ℕ) :
    ∀ (pl : ℕ) (qs : List ℕ) (bufs : List (Option (List (ℚ × ℚ)))),
      acqSeparated (RunLoop samplesCount fuel pl qs bufs) = true := by
  induction fuel with
  | zero => intro pl qs bufs; rfl
  | succ fuel ih =>
    intro pl qs bufs
    cases pl with
    | zero =>
      cases qs with
      | nil => simp [RunLoop, acqSeparated]
      | cons n qrest => simp [RunLoop, acqSeparated, ih]
    | succ pl =>
      cases hb : bufs.headD none with
      | none =>
        cases qs with
        | nil =>
            simp only [RunLoop, hb]
            simp [CaptureAndProcessAudio, acqSeparated, noAcqBeforeSleep]
        | cons n qrest =>
            simp only [RunLoop, hb]
            simp [CaptureAndProcessAudio, acqSeparated, noAcqBeforeSleep, ih]
      | some pkt =>
        cases qs with
        | nil =>
            simp only [RunLoop, hb]
            simp [CaptureAndProcessAudio, acqSeparated, noAcqBeforeSleep]
        | cons n qrest =>
            simp only [RunLoop, hb]
            simp [CaptureAndProcessAudio, acqSeparated, noAcqBeforeSleep, ih]

theorem acqSeparated_StartCapturing (samplesCount fuel : ℕ) (qs : List ℕ)
    (bufs : List (Option (List (ℚ × ℚ)))) :
    acqSeparated (StartCapturing samplesCount fuel qs bufs) = true := by
  cases qs with
  | nil => rfl
  | cons n qrest =>
      simpa [StartCapturing, acqSeparated] using
        acqSeparated_RunLoop samplesCount fuel n qrest bufs

/-- C4: at most one packet is drained per wake-up — whenever the capture
trace contains two `GetBuffer` calls, a sleep of the configured interval lies
strictly between them. -/
theorem one_packet_per_wakeup (samplesCount fuel : ℕ) (qs : List ℕ)
    (bufs : List (Option (List (ℚ × ℚ)))) (l₁ l₂ l₃ : List CapEv) (o₁ o₂ : Bool)
    (htr : StartCapturing samplesCount fuel qs bufs =
      l₁ ++ CapEv.getBuffer o₁ :: (l₂ ++ CapEv.getBuffer o₂ :: l₃)) :
    CapEv.sleep ∈ l₂ := by
  have hsep := acqSeparated_StartCapturing samplesCount fuel qs bufs
  rw [htr] at hsep
  have h1 : acqSeparated (CapEv.getBuffer o₁ :: (l₂ ++ CapEv.getBuffer o₂ :: l₃)) =
      true := acqSeparated_of_append l₁ _ hsep
  simp only [acqSeparated, Bool.and_eq_true] at h1
  exact noAcqBeforeSleep_append_getBuffer l₂ l₃ o₂ h1.1

theorem one_packet_per_wakeup_witness :
    CapEv.sleep ∈ [CapEv.emit [], CapEv.releaseBuffer, CapEv.query 1, CapEv.sleep] :=
  one_packet_per_wakeup 64 3 [1, 1] [some [], some []]
    [CapEv.query 1] [CapEv.emit [], CapEv.releaseBuffer, CapEv.query 1, CapEv.sleep]
    [CapEv.emit [], CapEv.releaseBuffer] true true (by decide)

theorem filterMap_pairTag_RunLoop (samplesCount : ℕ) (fuel : ℕ) :
    ∀ (pl : ℕ) (qs : List ℕ) (bufs : List (Option (List (ℚ × ℚ)))),
      ∃ k, (RunLoop samplesCount fuel pl qs bufs).filterMap pairTag = altPairs k := by
  induction fuel with
  | zero => intro pl qs bufs; exact ⟨0, rfl⟩
  | succ fuel ih =>
    intro pl qs bufs
    cases pl with
    | zero =>
      cases qs with
      | nil => exact ⟨0, rfl⟩
      | cons n qrest =>
          obtain ⟨k, hk⟩ := ih n qrest bufs
          exact ⟨k, by simpa [RunLoop, pairTag] using hk⟩
    | succ pl =>
      cases hb : bufs.headD none with
      | none =>
        cases qs with
        | nil =>
            refine ⟨1, ?_⟩
            simp only [RunLoop, hb]
            simp [CaptureAndProcessAudio, pairTag, altPairs]
        | cons n qrest =>
            obtain ⟨k, hk⟩ := ih n qrest bufs.tail
            refine ⟨k + 1, ?_⟩
            simp only [RunLoop, hb]
            simp [CaptureAndProcessAudio, pairTag, altPairs, hk]
      | some pkt =>
        cases qs with
        | nil =>
            refine ⟨1, ?_⟩
            simp only [RunLoop, hb]
            simp [CaptureAndProcessAudio, pairTag, altPairs]
        | cons n qrest =>
            obtain ⟨k, hk⟩ := ih n qrest bufs.tail
            refine ⟨k + 1, ?_⟩
            simp only [RunLoop, hb]
            simp [CaptureAndProcessAudio, pairTag, altPairs, hk]

/-- C5: buffer acquires and releases match 1:1 over every run — the
projection of the trace onto `GetBuffer`/`ReleaseBuffer` calls is a strict
alternation of acquire/release pairs, so each acquire (successful or not) is
followed by exactly one release before the next acquire. -/
theorem acquire_release_paired (samplesCount fuel : ℕ) (qs : List ℕ)
    (bufs : List (Option (List (ℚ × ℚ)))) :
    ∃ k, (StartCapturing samplesCount fuel qs bufs).filterMap pairTag = altPairs k := by
  cases qs with
  | nil => exact ⟨0, rfl⟩
  | cons n qrest =>
      obtain ⟨k, hk⟩ := filterMap_pairTag_RunLoop samplesCount fuel n qrest bufs
      exact ⟨k, by simpa [StartCapturing, pairTag] using hk⟩

/-- C6 counterexample: when `GetBuffer` fails (the commented-out `FAILED`
check), the cycle still emits a record — the empty array — and logs nothing;
the record is not dropped as the claim states.  Script: one pending packet,
one failing `GetBuffer`. -/
theorem record_emitted_on_getbuffer_failure :
    StartCapturing 64 2 [1] [none] =
        [CapEv.query 1, CapEv.getBuffer false, CapEv.emit [], CapEv.releaseBuffer] ∧
      CapEv.emit [] ∈ StartCapturing 64 2 [1] [none] := by
  constructor
  · decide
  · decide

/-- C6 (amended): when `GetBuffer` fails inside the capture loop, the failure
is silently ignored: the cycle still emits a record (the empty array, the
frame count having stayed 0), `ReleaseBuffer` is still called, no diagnostic
is produced, and the loop continues to the next poll without terminating. -/
theorem getbuffer_failure_ignored (samplesCount fuel pl n : ℕ) (qs : List ℕ)
    (bufs : List (Option (List (ℚ × ℚ)))) :
    RunLoop samplesCount (fuel + 1) (pl + 1) (n :: qs) (none :: bufs) =
      CapEv.getBuffer false :: CapEv.emit [] :: CapEv.releaseBuffer ::
        CapEv.query n :: CapEv.sleep :: RunLoop samplesCount fuel n qs bufs := by
  simp [RunLoop, CaptureAndProcessAudio, ProcessAudioData_nil]

theorem mem_RunLoop_of_zero_script (samplesCount : ℕ) (fuel : ℕ) :
    ∀ (qs : List ℕ) (bufs : List (Option (List (ℚ × ℚ)))),
      (∀ n ∈ qs, n = 0) →
        ∀ e ∈ RunLoop samplesCount fuel 0 qs bufs,
          e = CapEv.sleep ∨ ∃ m, e = CapEv.query m := by
  induction fuel with
  | zero => intro qs bufs _ e he; simp [RunLoop] at he
  | succ fuel ih =>
    intro qs bufs hz e he
    cases qs with
    | nil =>
        simp only [RunLoop, List.mem_singleton] at he
        exact Or.inl he
    | cons n qrest =>
        have hn : n = 0 := hz n (List.mem_cons_self n qrest)
        subst hn
        simp only [RunLoop, List.mem_cons] at he
        rcases he with rfl | rfl | he
        · exact Or.inl rfl
        · exact Or.inr ⟨0, rfl⟩
        · exact ih qrest bufs (fun m hm => hz m (List.mem_cons_of_mem 0 hm)) e he

/-- C7: if every `GetNextPacketSize` answer is zero, the loop only sleeps and
polls — the trace contains no buffer acquisition and no emitted record. -/
theorem zero_packets_only_sleeps (samplesCount fuel : ℕ) (qs : List ℕ)
    (bufs : List (Option (List (ℚ × ℚ)))) (hz : ∀ n ∈ qs, n = 0) :
    ∀ e ∈ StartCapturing samplesCount fuel qs bufs,
      e = CapEv.sleep ∨ ∃ m, e = CapEv.query m := by
  cases qs with
  | nil => intro e he; simp [StartCapturing] at he
  | cons n qrest =>
    intro e he
    have hn : n = 0 := hz n (List.mem_cons_self n qrest)
    subst hn
    simp only [StartCapturing, List.mem_cons] at he
    rcases he with rfl | he
    · exact Or.inr ⟨0, rfl⟩
    · exact mem_RunLoop_of_zero_script samplesCount fuel qrest bufs
        (fun m hm => hz m (List.mem_cons_of_mem 0 hm)) e he

theorem zero_packets_only_sleeps_witness :
    CapEv.sleep = CapEv.sleep ∨ ∃ m, CapEv.sleep = CapEv.query m :=
  zero_packets_only_sleeps 64 3 [0, 0] [] (by decide) CapEv.sleep (by decide)

theorem atoi_samples_flag : atoi "-samples" = 0 := by decide

theorem atoi_interval_flag : atoi "-interval" = 0 := by decide

theorem atoiDigits_of_head_not_digit (cs : List Char) (acc : ℤ)
    (h : ∀ c ∈ cs, c.isDigit = false) : atoiDigits cs acc = acc := by
  cases cs with
  | nil => rfl
  | cons c t =>
      rw [atoiDigits, if_neg]
      simp [h c (List.mem_cons_self c t)]

theorem atoi_of_no_digit (s : String) (h : ∀ c ∈ s.toList, c.isDigit = false) :
    atoi s = 0 := by
  have hsub : ∀ c ∈ s.toList.dropWhile isSpaceChar, c.isDigit = false :=
    fun c hc => h c ((List.dropWhile_sublist isSpaceChar).subset hc)
  unfold atoi
  split
  · rename_i cs heq
    rw [atoiDigits_of_head_not_digit cs 0
      (fun c hc => hsub c (heq ▸ List.mem_cons_of_mem _ hc))]
    exact neg_zero
  · rename_i cs heq
    exact atoiDigits_of_head_not_digit cs 0
      (fun c hc => hsub c (heq ▸ List.mem_cons_of_mem _ hc))
  · exact atoiDigits_of_head_not_digit _ 0 hsub

theorem parseArgs_samples_cons (v : String) (rest2 : List String) (s iv : ℤ) :
    parseArgs ("-samples" :: v :: rest2) s iv =
      if atoi v ≤ 0 then Except.error "Samples count must be positive."
      else parseArgs rest2 (atoi v) iv := by
  simp [parseArgs]

theorem parseArgs_interval_cons (v : String) (rest2 : List String) (s iv : ℤ) :
    parseArgs ("-interval" :: v :: rest2) s iv =
      if atoi v ≤ 0 then Except.error "Interval must be positive."
      else parseArgs rest2 s (atoi v) := by
  simp only [parseArgs]
  rw [if_neg (by decide : ¬("-interval" = "-samples"))]
  simp

theorem parseArgs_skip (a : String) (rest : List String) (s iv : ℤ)
    (has : a ≠ "-samples") (hai : a ≠ "-interval") :
    parseArgs (a :: rest) s iv = parseArgs rest s iv := by
  cases rest with
  | nil => simp [parseArgs, if_neg has, if_neg hai]
  | cons b rest2 => simp [parseArgs, if_neg has, if_neg hai]

theorem parseArgs_flag_last (flag : String)
    (hflag : flag = "-samples" ∨ flag = "-interval") (s iv : ℤ) :
    parseArgs [flag] s iv = Except.ok (s, iv) := by
  rcases hflag with rfl | rfl
  · simp [parseArgs]
  · simp only [parseArgs]
    rw [if_neg (by decide : ¬("-interval" = "-samples"))]
    simp

theorem parseArgs_error_of_adjacent_nonpos (n : ℕ) :
    ∀ (args : List String), args.length ≤ n →
      ∀ (s iv : ℤ) (flag v : String),
        (flag = "-samples" ∨ flag = "-interval") → Adjacent flag v args →
          atoi v ≤ 0 → ∃ msg, parseArgs args s iv = Except.error msg := by
  induction n with
  | zero =>
    intro args hlen s iv flag v _ hadj _
    obtain ⟨l, r, hl⟩ := hadj
    subst hl
    simp at hlen
  | succ n ih =>
    intro args hlen s iv flag v hflag hadj hv
    have hflag0 : atoi flag ≤ 0 := by
      rcases hflag with rfl | rfl
      · rw [atoi_samples_flag]
      · rw [atoi_interval_flag]
    obtain ⟨l, r, hl⟩ := hadj
    cases l with
    | nil =>
      subst hl
      rcases hflag with rfl | rfl
      · exact ⟨"Samples count must be positive.", by
          rw [List.nil_append, parseArgs_samples_cons, if_pos hv]⟩
      · exact ⟨"Interval must be positive.", by
          rw [List.nil_append, parseArgs_interval_cons, if_pos hv]⟩
    | cons a l' =>
      simp only [List.cons_append] at hl
      subst hl
      have hlen' : (l' ++ flag :: v :: r).length ≤ n := by
        simp at hlen ⊢; omega
      by_cases ha : a = "-samples"
      · subst ha
        cases l' with
        | nil =>
          exact ⟨"Samples count must be positive.", by
            rw [List.nil_append, parseArgs_samples_cons, if_pos hflag0]⟩
        | cons v0 l'' =>
          by_cases hv0 : atoi v0 ≤ 0
          · exact ⟨"Samples count must be positive.", by
              rw [List.cons_append, parseArgs_samples_cons, if_pos hv0]⟩
          · obtain ⟨msg, hmsg⟩ := ih (l'' ++ flag :: v :: r)
              (by simp at hlen' ⊢; omega) (atoi v0) iv flag v hflag ⟨l'', r, rfl⟩ hv
            exact ⟨msg, by
              rw [List.cons_append, parseArgs_samples_cons, if_neg hv0]
              exact hmsg⟩
      · by_cases hai : a = "-interval"
        · subst hai
          cases l' with
          | nil =>
            exact ⟨"Interval must be positive.", by
              rw [List.nil_append, parseArgs_interval_cons, if_pos hflag0]⟩
          | cons v0 l'' =>
            by_cases hv0 : atoi v0 ≤ 0
            · exact ⟨"Interval must be positive.", by
                rw [List.cons_append, parseArgs_interval_cons, if_pos hv0]⟩
            · obtain ⟨msg, hmsg⟩ := ih (l'' ++ flag :: v :: r)
                (by simp at hlen' ⊢; omega) s (atoi v0) flag v hflag ⟨l'', r, rfl⟩ hv
              exact ⟨msg, by
                rw [List.cons_append, parseArgs_interval_cons, if_neg hv0]
                exact hmsg⟩
        · obtain ⟨msg, hmsg⟩ := ih (l' ++ flag :: v :: r) hlen' s iv flag v hflag
            ⟨l', r, rfl⟩ hv
          exact ⟨msg, by rw [parseArgs_skip a _ s iv ha hai]; exact hmsg⟩

theorem parseArgs_no_flags (args : List String) :
    ∀ (s iv : ℤ), "-samples" ∉ args → "-interval" ∉ args →
      parseArgs args s iv = Except.ok (s, iv) := by
  induction args with
  | nil => intro s iv _ _; rfl
  | cons a rest ih =>
    intro s iv hs hi
    have has : a ≠ "-samples" := fun h => hs (h ▸ List.mem_cons_self a rest)
    have hai : a ≠ "-interval" := fun h => hi (h ▸ List.mem_cons_self a rest)
    rw [parseArgs_skip a rest s iv has hai]
    exact ih s iv (fun h => hs (List.mem_cons_of_mem a h))
      (fun h => hi (List.mem_cons_of_mem a h))

theorem parseArgs_trailing_flag (pre : List String) :
    ∀ (s iv : ℤ) (flag : String), (flag = "-samples" ∨ flag = "-interval") →
      "-samples" ∉ pre → "-interval" ∉ pre →
        parseArgs (pre ++ [flag]) s iv = Except.ok (s, iv) := by
  induction pre with
  | nil =>
    intro s iv flag hflag _ _
    rw [List.nil_append]
    exact parseArgs_flag_last flag hflag s iv
  | cons a pre' ih =>
    intro s iv flag hflag hs hi
    have has : a ≠ "-samples" := fun h => hs (h ▸ List.mem_cons_self a pre')
    have hai : a ≠ "-interval" := fun h => hi (h ▸ List.mem_cons_self a pre')
    rw [List.cons_append, parseArgs_skip a _ s iv has hai]
    exact ih s iv flag hflag (fun h => hs (List.mem_cons_of_mem a h))
      (fun h => hi (List.mem_cons_of_mem a h))

/-- C8: a `-samples` or `-interval` flag whose value converts non-positively
is a fatal input error — the process exits with `EXIT_FAILURE` before the
capture loop; and with neither flag on the command line, the configuration
entering the capture loop is the default 64 samples / 15 ms. -/
theorem nonpositive_fatal_and_defaults (args : List String) :
    ((∃ flag v, (flag = "-samples" ∨ flag = "-interval") ∧
        Adjacent flag v args ∧ atoi v ≤ 0) →
      mainModel args = MainOutcome.exitFailure) ∧
    (("-samples" ∉ args ∧ "-interval" ∉ args) →
      mainModel args = MainOutcome.enterCapture 64 15) := by
  constructor
  · rintro ⟨flag, v, hflag, hadj, hv⟩
    obtain ⟨msg, hmsg⟩ := parseArgs_error_of_adjacent_nonpos args.length args
      (le_refl _) 64 15 flag v hflag hadj hv
    unfold mainModel
    rw [hmsg]
  · rintro ⟨hs, hi⟩
    unfold mainModel
    rw [parseArgs_no_flags args 64 15 hs hi]

theorem nonpositive_fatal_and_defaults_witness :
    mainModel ["-samples", "0"] = MainOutcome.exitFailure ∧
      mainModel [] = MainOutcome.enterCapture 64 15 :=
  ⟨(nonpositive_fatal_and_defaults ["-samples", "0"]).1
      ⟨"-samples", "0", Or.inl rfl, ⟨[], [], rfl⟩, by decide⟩,
    (nonpositive_fatal_and_defaults []).2 (by decide)⟩

/-- C10: a `-samples`/`-interval` flag whose following token contains no
digit converts to 0 via `atoi` and is rejected as a fatal "must be positive"
error instead of being ignored; by contrast, a recognized flag that is the
final argument (no following value) is silently skipped and the defaults are
kept. -/
theorem malformed_value_fatal_trailing_flag_ignored :
    (∀ (args : List String) (flag v : String),
      (flag = "-samples" ∨ flag = "-interval") → Adjacent flag v args →
        (∀ c ∈ v.toList, c.isDigit = false) →
          atoi v = 0 ∧ mainModel args = MainOutcome.exitFailure) ∧
    (∀ (pre : List String) (flag : String),
      (flag = "-samples" ∨ flag = "-interval") →
        "-samples" ∉ pre → "-interval" ∉ pre →
          mainModel (pre ++ [flag]) = MainOutcome.enterCapture 64 15) := by
  constructor
  · intro args flag v hflag hadj hnod
    have hz : atoi v = 0 := atoi_of_no_digit v hnod
    refine ⟨hz, ?_⟩
    obtain ⟨msg, hmsg⟩ := parseArgs_error_of_adjacent_nonpos args.length args
      (le_refl _) 64 15 flag v hflag hadj (le_of_eq hz)
    unfold mainModel
    rw [hmsg]
  · intro pre flag hflag hs hi
    unfold mainModel
    rw [parseArgs_trailing_flag pre 64 15 flag hflag hs hi]

theorem malformed_value_fatal_trailing_flag_ignored_witness :
    (atoi "abc" = 0 ∧ mainModel ["-samples", "abc"] = MainOutcome.exitFailure) ∧
      mainModel ["-foo", "-interval"] = MainOutcome.enterCapture 64 15 :=
  ⟨malformed_value_fatal_trailing_flag_ignored.1 ["-samples", "abc"] "-samples" "abc"
      (Or.inl rfl) ⟨[], [], rfl⟩ (by decide),
    malformed_value_fatal_trailing_flag_ignored.2 ["-foo"] "-interval"
      (Or.inr rfl) (by decide) (by decide)⟩

end GetDesktopAudio
